import Mathlib

/-!
Verification of the bitrixutils exchange client (bitrix_exchange.py).

Python strings are embedded as lists of characters (Str), file names and
response bodies included.  The HTTP layer is embedded as a trace semantics:
the server is a list of responses consumed one per issued request, and every
top-level operation returns the list of requests it issued together with a
final outcome (success state, raised TestError message and the object state
at raise time, or exhaustion of the supplied responses).
-/

set_option linter.unusedVariables false

abbrev Str := List Char

/-- Embedding of Python str.startswith: startsWith s pre is true when pre is
an initial run of s. -/
def startsWith : Str → Str → Bool
  | _, [] => true
  | [], _ :: _ => false
  | c :: cs, p :: ps => c == p && startsWith cs ps

/-- The character class [a-z0-9] of the session-id pattern. -/
def lowerAlnum (c : Char) : Bool :=
  (decide ('a' ≤ c) && decide (c ≤ 'z')) || (decide ('0' ≤ c) && decide (c ≤ '9'))

/-- Match of the pattern sessid=([a-z0-9]+) anchored at the front of t:
the literal key followed by a maximal nonempty run of [a-z0-9], returning
the captured group. -/
def matchSessidAt (t : Str) : Option Str :=
  if startsWith t "sessid=".toList then
    let run := (t.drop ("sessid=".toList).length).takeWhile lowerAlnum
    if run.isEmpty then none else some run
  else none

/-- Embedding of session_id_regex.search: leftmost match of
sessid=([a-z0-9]+) in the text, returning the captured group. -/
def searchSessid : Str → Option Str
  | [] => none
  | c :: cs =>
    match matchSessidAt (c :: cs) with
    | some r => some r
    | none => searchSessid cs

/-- Position of the last dot of a list of characters, counting from i. -/
def lastDotAux : Str → Nat → Option Nat
  | [], _ => none
  | c :: cs, i =>
    match lastDotAux cs (i + 1) with
    | some j => some j
    | none => if c == '.' then some i else none

/-- Embedding of os.path.splitext(base)[-1] for a base name without path
separators: the extension starts at the last dot, except when every
character before that dot is itself a dot (then the extension is empty). -/
def splitextExt (base : Str) : Str :=
  match lastDotAux base 0 with
  | none => []
  | some i => if (base.take i).all (fun c => c == '.') then [] else base.drop i

/-- Characters of a relative path after its last slash, i.e.
os.path.split(name)[-1]. -/
def afterLastSlash (name : Str) : Str :=
  name.foldl (fun acc c => if c == '/' then [] else acc ++ [c]) []

/-- Embedding of pack_catalog.  The directory walk is abstracted by the list
of relative paths of the files it visits, in walk order; the zip archive is
irrelevant to the returned value, which keeps exactly the entries whose base
name has extension .xml. -/
def pack_catalog (entries : List Str) : List Str :=
  entries.filter (fun n => splitextExt (afterLastSlash n) == ".xml".toList)

/-- The key computed by sort for one file name:
os.path.split(name)[-1].split('_')[0], the base name up to its first
underscore. -/
def keyOf (name : Str) : Str :=
  (afterLastSlash name).takeWhile (fun c => !(c == '_'))

/-- The priority table of sort; keys outside the table give none (dict.get). -/
def weight (key : Str) : Option Nat :=
  if key == "import".toList then some 1
  else if key == "offers".toList then some 2
  else if key == "rests".toList then some 3
  else if key == "prices".toList then some 4
  else none

/-- Stable insertion of a weighted name into an already sorted list: the new
pair goes before the first pair of weight not below its own, so pairs of
equal weight keep their original relative order. -/
def insort (p : Nat × Str) : List (Nat × Str) → List (Nat × Str)
  | [] => [p]
  | q :: qs => if p.1 ≤ q.1 then p :: q :: qs else q :: insort p qs

/-- Stable sort of weighted names by weight, embedding Python's stable
sorted(ls, key=lambda x: x[0]). -/
def sortPairs : List (Nat × Str) → List (Nat × Str)
  | [] => []
  | p :: ps => insort p (sortPairs ps)

/-- Embedding of the module-level sort function: pair every name whose key is
in the priority table with its weight, keeping input order, stable-sort the
pairs by weight, and drop the weights. -/
def sort (files : List Str) : List Str :=
  (sortPairs (files.filterMap
    (fun name => (weight (keyOf name)).map (fun w => (w, name))))).map Prod.snd

/-- An HTTP response: status code and body text. -/
structure Response where
  status_code : Nat
  text : Str
  deriving DecidableEq

/-- HTTP method of a request. -/
inductive RMethod where
  | get
  | post
  deriving DecidableEq

/-- An issued HTTP request: method, query parameters in order, and whether
basic authentication credentials were attached. -/
structure Request where
  method : RMethod
  params : List (Str × Str)
  auth : Bool
  deriving DecidableEq

/-- The mutable state of the Tester object: target data plus session_id and
old_protocol exactly as in __init__ and later mutations. -/
structure Tester where
  url : Str
  login : Str
  password : Str
  session_id : Option Str
  old_protocol : Bool
  deriving DecidableEq

/-- Tester.__init__: session_id starts at None and old_protocol at True. -/
def Tester.mk0 (url login password : Str) : Tester :=
  ⟨url, login, password, none, true⟩

/-- ACTUAL_VERSION constant. -/
def ACTUAL_VERSION : Str := "3.1".toList

/-- Tester.archive_name constant. -/
def archive_name : Str := "catalog.zip".toList

/-- Outcome of a run: normal return with the state and the responses not yet
consumed, a raised TestError with its message and the state at raise time,
or exhaustion of the supplied list of responses. -/
inductive StepOut where
  | ok (t : Tester) (rest : List Response)
  | fail (msg : Str) (t : Tester)
  | starve
  deriving DecidableEq

namespace Tester

/-- Embedding of Tester.check_response: raise TestError(response.text) when
the status code is not 200, else when the body starts with failure; logging
has no semantic effect and is omitted. -/
def check_response (r : Response) : Except Str Unit :=
  if r.status_code ≠ 200 then .error r.text
  else if startsWith r.text "failure".toList then .error r.text
  else .ok ()

/-- The condition under which check_response raises, as a boolean. -/
def classifiedFailure (r : Response) : Bool :=
  !(r.status_code == 200) || startsWith r.text "failure".toList

/-- The checkauth request of authorise: GET type=sale mode=checkauth with
basic authentication. -/
def checkauthReq : Request :=
  ⟨.get, [("type".toList, "sale".toList), ("mode".toList, "checkauth".toList)], true⟩

/-- Embedding of get_protocol_parameters: empty under the old protocol,
version and sessid under the new one (session_id is always set before this
is consulted on the new-protocol path). -/
def get_protocol_parameters (t : Tester) : List (Str × Str) :=
  if t.old_protocol then []
  else [("version".toList, ACTUAL_VERSION), ("sessid".toList, t.session_id.getD [])]

/-- The init request: GET type=mode mode=init plus protocol parameters. -/
def initReq (mode : Str) (pp : List (Str × Str)) : Request :=
  ⟨.get, [("type".toList, mode), ("mode".toList, "init".toList)] ++ pp, false⟩

/-- The upload request of upload_file: POST type=catalog mode=file with the
fixed archive name; the request body (archive bytes) carries no protocol
information and is omitted. -/
def uploadReq : Request :=
  ⟨.post, [("type".toList, "catalog".toList), ("mode".toList, "file".toList),
           ("filename".toList, archive_name)], false⟩

/-- The import request of _import: GET type=catalog mode=import with the
relative file name and no protocol parameters. -/
def importReq (fn : Str) : Request :=
  ⟨.get, [("type".toList, "catalog".toList), ("mode".toList, "import".toList),
          ("filename".toList, fn)], false⟩

/-- The finalize request of finish: GET type=sale mode=success plus protocol
parameters. -/
def successReq (pp : List (Str × Str)) : Request :=
  ⟨.get, [("type".toList, "sale".toList), ("mode".toList, "success".toList)] ++ pp, false⟩

/-- The query request of get_orders: GET type=sale mode=query plus protocol
parameters. -/
def queryReq (pp : List (Str × Str)) : Request :=
  ⟨.get, [("type".toList, "sale".toList), ("mode".toList, "query".toList)] ++ pp, false⟩

/-- Outcome of authorise on a list of pending responses: consume one
response, classify it, and under the new protocol extract the session id or
raise when the pattern is absent. -/
def authorise_out (t : Tester) (resps : List Response) : StepOut :=
  match resps with
  | [] => .starve
  | r :: rest =>
    match check_response r with
    | .error e => .fail e t
    | .ok _ =>
      if t.old_protocol then .ok t rest
      else
        match searchSessid r.text with
        | some sid => .ok { t with session_id := some sid } rest
        | none => .fail ("Selected new protocol version, but sessid not set".toList) t

/-- Embedding of Tester.authorise: the checkauth request plus its outcome. -/
def authorise (t : Tester) (resps : List Response) : List Request × StepOut :=
  ([checkauthReq], authorise_out t resps)

/-- Outcome of a plain request-then-check step: consume one response and
classify it; the state is unchanged. -/
def httpOut (t : Tester) (resps : List Response) : StepOut :=
  match resps with
  | [] => .starve
  | r :: rest =>
    match check_response r with
    | .error e => .fail e t
    | .ok _ => .ok t rest

/-- Embedding of Tester.init. -/
def init (t : Tester) (mode : Str) (resps : List Response) : List Request × StepOut :=
  ([initReq mode (get_protocol_parameters t)], httpOut t resps)

/-- Embedding of Tester.upload_file. -/
def upload_file (t : Tester) (resps : List Response) : List Request × StepOut :=
  ([uploadReq], httpOut t resps)

/-- Embedding of Tester.finish. -/
def finish (t : Tester) (resps : List Response) : List Request × StepOut :=
  ([successReq (get_protocol_parameters t)], httpOut t resps)

/-- Embedding of Tester.get_orders (the printed response body is display
glue and is not modelled). -/
def get_orders (t : Tester) (resps : List Response) : List Request × StepOut :=
  ([queryReq (get_protocol_parameters t)], httpOut t resps)

/-- Sequencing of protocol steps: on normal return run the continuation on
the new state and remaining responses, concatenating the request traces; a
raised error or exhaustion propagates, keeping the trace so far. -/
def seq (step : List Request × StepOut)
    (k : Tester → List Response → List Request × StepOut) : List Request × StepOut :=
  match step with
  | (reqs, .ok t rest) => (reqs ++ (k t rest).1, (k t rest).2)
  | (reqs, out) => (reqs, out)

/-- Embedding of the loop while self._import(filename): pass from
import_catalog: each iteration issues the import request for the file,
classifies the reply, and repeats exactly when the body starts with
progress. -/
def import_file_loop (t : Tester) (fn : Str) : List Response → List Request × StepOut
  | [] => ([importReq fn], .starve)
  | r :: rest =>
    match check_response r with
    | .error e => ([importReq fn], .fail e t)
    | .ok _ =>
      if startsWith r.text "progress".toList then
        ((importReq fn) :: (import_file_loop t fn rest).1, (import_file_loop t fn rest).2)
      else ([importReq fn], .ok t rest)

/-- The for filename in data_files loop of import_catalog: the polling loop
of each file in turn. -/
def import_files (t : Tester) : List Str → List Response → List Request × StepOut
  | [], resps => ([], .ok t resps)
  | fn :: fns, resps =>
    seq (import_file_loop t fn resps) (fun t2 r2 => import_files t2 fns r2)

/-- The protocol part of import_catalog once data files were found:
authorise, init catalog, upload, per-file import loops, finalize. -/
def import_catalog_files (t : Tester) (data_files : List Str)
    (resps : List Response) : List Request × StepOut :=
  seq (authorise t resps) (fun t1 r1 =>
  seq (init t1 ("catalog".toList) r1) (fun t2 r2 =>
  seq (upload_file t2 r2) (fun t3 r3 =>
  seq (import_files t3 data_files r3) (fun t4 r4 =>
  finish t4 r4))))

/-- Embedding of Tester.import_catalog: pack the walked entries, and when at
least one data file was found run the protocol over them in the packed
order, else raise TestError with no request issued. -/
def import_catalog (t : Tester) (entries : List Str)
    (resps : List Response) : List Request × StepOut :=
  let data_files := pack_catalog entries
  if data_files.length ≠ 0 then import_catalog_files t data_files resps
  else ([], .fail ("Not found files for import".toList) t)

/-- Embedding of Tester.export_orders: the old_protocol argument is accepted
but never read; the field is unconditionally set to False, then authorise,
init sale, query, finalize. -/
def export_orders (t : Tester) (old_protocol : Bool)
    (resps : List Response) : List Request × StepOut :=
  seq (authorise { t with old_protocol := false } resps) (fun t1 r1 =>
  seq (init t1 ("sale".toList) r1) (fun t2 r2 =>
  seq (get_orders t2 r2) (fun t3 r3 =>
  finish t3 r3)))

end Tester

/-- A sample session object in its initial state, used as concrete input. -/
def sampleTester : Tester :=
  Tester.mk0 ("http://host/bitrix/admin/1c_exchange.php".toList) ("login".toList) ("pw".toList)

/-- A sample passing response. -/
def okResp : Response := ⟨200, "ok".toList⟩

/-- A sample in-progress response of the import step. -/
def progressResp : Response := ⟨200, "progress".toList⟩

/-- A sample failing response. -/
def failureResp : Response := ⟨200, "failure: boom".toList⟩

/-- The Tester state recorded in an outcome, when there is one. -/
def outState : StepOut → Option Tester
  | .ok t _ => some t
  | .fail _ t => some t
  | .starve => none

/-- A request that carries neither a version nor a sessid parameter. -/
def noProtocolParams (req : Request) : Bool :=
  req.params.all (fun kv => !(kv.1 == "version".toList) && !(kv.1 == "sessid".toList))

/-- The session-id invariant of a state: when the identifier is set, it is a
nonempty word of lowercase letters and digits. -/
def sessionIdOk (t : Tester) : Bool :=
  match t.session_id with
  | none => true
  | some s => !s.isEmpty && s.all lowerAlnum

/-- The session-id invariant of the state recorded in an outcome. -/
def outSessionIdOk (o : StepOut) : Bool :=
  match outState o with
  | none => true
  | some t => sessionIdOk t

/-! ## Basic lemmas about the response classifier and the step combinators -/

theorem check_response_of_pass (r : Response) (h : Tester.classifiedFailure r = false) :
    Tester.check_response r = .ok () := by
  unfold Tester.classifiedFailure at h
  rw [Bool.or_eq_false_iff] at h
  obtain ⟨ha, hb⟩ := h
  have h1 : r.status_code = 200 := by
    cases hbe : (r.status_code == 200) with
    | false => rw [hbe] at ha; simp at ha
    | true => exact beq_iff_eq.mp hbe
  unfold Tester.check_response
  rw [if_neg (show ¬ r.status_code ≠ 200 from fun hc => hc h1)]
  rw [if_neg (show ¬ startsWith r.text "failure".toList = true from by rw [hb]; simp)]

theorem check_response_of_fail (r : Response) (h : Tester.classifiedFailure r = true) :
    Tester.check_response r = .error r.text := by
  by_cases h1 : r.status_code = 200
  · have h2 : startsWith r.text "failure".toList = true := by
      unfold Tester.classifiedFailure at h
      rw [h1] at h
      simpa using h
    unfold Tester.check_response
    rw [if_neg (show ¬ r.status_code ≠ 200 from fun hc => hc h1), if_pos h2]
  · unfold Tester.check_response
    rw [if_pos h1]

theorem progress_not_failure (s : Str) (h : startsWith s ("progress".toList) = true) :
    startsWith s ("failure".toList) = false := by
  have hp : ("progress".toList : Str) = 'p' :: "rogress".toList := rfl
  have hf : ("failure".toList : Str) = 'f' :: "ailure".toList := rfl
  cases s with
  | nil => rw [hp] at h; simp [startsWith] at h
  | cons c cs =>
    rw [hp] at h
    rw [hf]
    simp only [startsWith, Bool.and_eq_true, beq_iff_eq] at h
    have : ('p' == 'f') = false := rfl
    simp [startsWith, h.1, this]

theorem seq_ok (reqs : List Request) (t : Tester) (rest : List Response)
    (k : Tester → List Response → List Request × StepOut) :
    Tester.seq (reqs, .ok t rest) k = (reqs ++ (k t rest).1, (k t rest).2) := rfl

theorem seq_fail (reqs : List Request) (e : Str) (t : Tester)
    (k : Tester → List Response → List Request × StepOut) :
    Tester.seq (reqs, .fail e t) k = (reqs, .fail e t) := rfl

theorem seq_starve (reqs : List Request)
    (k : Tester → List Response → List Request × StepOut) :
    Tester.seq (reqs, .starve) k = (reqs, .starve) := rfl

theorem httpOut_pass (t : Tester) (r : Response) (rest : List Response)
    (h : Tester.classifiedFailure r = false) :
    Tester.httpOut t (r :: rest) = .ok t rest := by
  simp [Tester.httpOut, check_response_of_pass r h]

theorem httpOut_fail (t : Tester) (r : Response) (rest : List Response)
    (h : Tester.classifiedFailure r = true) :
    Tester.httpOut t (r :: rest) = .fail r.text t := by
  simp [Tester.httpOut, check_response_of_fail r h]

theorem authorise_out_old (t : Tester) (r : Response) (rest : List Response)
    (ht : t.old_protocol = true) (h : Tester.classifiedFailure r = false) :
    Tester.authorise_out t (r :: rest) = .ok t rest := by
  simp [Tester.authorise_out, check_response_of_pass r h, ht]

theorem authorise_out_fail (t : Tester) (r : Response) (rest : List Response)
    (h : Tester.classifiedFailure r = true) :
    Tester.authorise_out t (r :: rest) = .fail r.text t := by
  simp [Tester.authorise_out, check_response_of_fail r h]

theorem authorise_out_new_none (t : Tester) (r : Response) (rest : List Response)
    (ht : t.old_protocol = false) (h : Tester.classifiedFailure r = false)
    (hs : searchSessid r.text = none) :
    Tester.authorise_out t (r :: rest)
      = .fail ("Selected new protocol version, but sessid not set".toList) t := by
  simp [Tester.authorise_out, check_response_of_pass r h, ht, hs]

theorem authorise_out_new_some (t : Tester) (r : Response) (rest : List Response)
    (ht : t.old_protocol = false) (h : Tester.classifiedFailure r = false)
    (sid : Str) (hs : searchSessid r.text = some sid) :
    Tester.authorise_out t (r :: rest) = .ok { t with session_id := some sid } rest := by
  simp [Tester.authorise_out, check_response_of_pass r h, ht, hs]

/-! ## Per-file polling loop -/

theorem import_file_loop_advances (t : Tester) (fn : Str) (ps : List Response)
    (r : Response) (rest : List Response)
    (hp : ∀ p ∈ ps, p.status_code = 200 ∧ startsWith p.text ("progress".toList) = true)
    (h200 : r.status_code = 200)
    (hnp : startsWith r.text ("progress".toList) = false)
    (hnf : startsWith r.text ("failure".toList) = false) :
    Tester.import_file_loop t fn (ps ++ r :: rest)
      = (List.replicate (ps.length + 1) (Tester.importReq fn), .ok t rest) := by
  induction ps with
  | nil =>
    have hcf : Tester.classifiedFailure r = false := by
      unfold Tester.classifiedFailure
      rw [h200, hnf]
      rfl
    simp only [List.nil_append, Tester.import_file_loop, check_response_of_pass r hcf]
    rw [hnp]
    rfl
  | cons p ps ih =>
    obtain ⟨hp200, hppr⟩ := hp p (List.mem_cons_self p ps)
    have hpnf := progress_not_failure p.text hppr
    have hcf : Tester.classifiedFailure p = false := by
      unfold Tester.classifiedFailure
      rw [hp200, hpnf]
      rfl
    have ih2 := ih (fun q hq => hp q (List.mem_cons_of_mem p hq))
    simp only [List.cons_append, Tester.import_file_loop, check_response_of_pass p hcf]
    rw [hppr]
    simp only [if_true, List.append_eq, ih2, List.length_cons]
    simp [List.replicate_succ]

/-- C2: a server that answers an import request with status 200 and a body
starting with progress exactly N times, then with a passing, non-progress
body, makes the polling loop issue exactly N plus one import requests for
that file and no others, after which the session advances to the next file
of the list with the remaining responses intact. -/
theorem claim_c2_progress_polling (t : Tester) (fn : Str) (ps : List Response)
    (r : Response) (rest : List Response)
    (hp : ∀ p ∈ ps, p.status_code = 200 ∧ startsWith p.text ("progress".toList) = true)
    (h200 : r.status_code = 200)
    (hnp : startsWith r.text ("progress".toList) = false)
    (hnf : startsWith r.text ("failure".toList) = false) :
    Tester.import_file_loop t fn (ps ++ r :: rest)
      = (List.replicate (ps.length + 1) (Tester.importReq fn), .ok t rest) ∧
    ∀ fns, Tester.import_files t (fn :: fns) (ps ++ r :: rest)
      = (List.replicate (ps.length + 1) (Tester.importReq fn)
          ++ (Tester.import_files t fns rest).1,
         (Tester.import_files t fns rest).2) := by
  have hloop := import_file_loop_advances t fn ps r rest hp h200 hnp hnf
  refine ⟨hloop, fun fns => ?_⟩
  show Tester.seq (Tester.import_file_loop t fn (ps ++ r :: rest)) _ = _
  rw [hloop, seq_ok]

/-- Concrete instance of C2: one progress reply then a passing reply yields
exactly two import requests and an advance. -/
theorem claim_c2_progress_polling_witness :
    Tester.import_file_loop sampleTester ("import_1.xml".toList)
        ([progressResp] ++ okResp :: [])
      = (List.replicate 2 (Tester.importReq ("import_1.xml".toList)), .ok sampleTester []) :=
  (claim_c2_progress_polling sampleTester ("import_1.xml".toList) [progressResp] okResp []
    (by decide) (by decide) (by decide) (by decide)).1

/-- C3: under the new protocol (the order-export path switches to it
unconditionally), a checkauth reply that passes the classifier but contains
no sessid=[a-z0-9]+ token makes the session raise the authentication error
at once: its whole request trace is the single checkauth request. -/
theorem claim_c3_missing_sessid (t : Tester) (b : Bool) (r : Response) (rest : List Response)
    (h200 : r.status_code = 200)
    (hnf : startsWith r.text ("failure".toList) = false)
    (hs : searchSessid r.text = none) :
    Tester.export_orders t b (r :: rest)
      = ([Tester.checkauthReq],
         .fail ("Selected new protocol version, but sessid not set".toList)
           { t with old_protocol := false }) := by
  have hcf : Tester.classifiedFailure r = false := by
    unfold Tester.classifiedFailure
    rw [h200, hnf]
    rfl
  have hout := authorise_out_new_none { t with old_protocol := false } r rest rfl hcf hs
  show Tester.seq (Tester.authorise { t with old_protocol := false } (r :: rest)) _ = _
  unfold Tester.authorise
  rw [hout, seq_fail]

/-- Concrete instance of C3: a 200 reply with body ok and no sessid token
aborts the export run right after checkauth. -/
theorem claim_c3_missing_sessid_witness :
    Tester.export_orders sampleTester false (okResp :: [])
      = ([Tester.checkauthReq],
         .fail ("Selected new protocol version, but sessid not set".toList)
           { sampleTester with old_protocol := false }) :=
  claim_c3_missing_sessid sampleTester false okResp [] (by decide) (by decide) (by decide)

/-- C4: the response classifier raises exactly when the status code differs
from 200 or the body starts with failure, and a status-200 reply whose body
starts with progress always passes it. -/
theorem claim_c4_classifier (r : Response) :
    ((∃ e, Tester.check_response r = .error e) ↔
      (r.status_code ≠ 200 ∨ startsWith r.text ("failure".toList) = true)) ∧
    (r.status_code = 200 → startsWith r.text ("progress".toList) = true →
      Tester.check_response r = .ok ()) := by
  constructor
  · constructor
    · intro ⟨e, he⟩
      by_cases h1 : r.status_code = 200
      · by_cases h2 : startsWith r.text ("failure".toList) = true
        · exact Or.inr h2
        · have hcf : Tester.classifiedFailure r = false := by
            unfold Tester.classifiedFailure
            rw [h1, Bool.eq_false_iff.mpr h2]
            rfl
          rw [check_response_of_pass r hcf] at he
          exact absurd he (by simp)
      · exact Or.inl h1
    · intro h
      refine ⟨r.text, check_response_of_fail r ?_⟩
      unfold Tester.classifiedFailure
      rcases h with h | h
      · have : (r.status_code == 200) = false := by
          cases hbe : (r.status_code == 200) with
          | false => rfl
          | true => exact absurd (beq_iff_eq.mp hbe) h
        rw [this]
        rfl
      · rw [h]
        simp
  · intro h200 hpr
    have hnf := progress_not_failure r.text hpr
    have hcf : Tester.classifiedFailure r = false := by
      unfold Tester.classifiedFailure
      rw [h200, hnf]
      rfl
    exact check_response_of_pass r hcf

/-- Concrete instance of C4: a status-200 progress reply passes the
classifier. -/
theorem claim_c4_classifier_witness :
    Tester.check_response progressResp = .ok () :=
  (claim_c4_classifier progressResp).2 rfl (by decide)

/-- C7: when the packaged directory walk yields no data file with extension
.xml, import_catalog raises the input error Not found files for import and
its request trace is empty. -/
theorem claim_c7_no_data_files (t : Tester) (entries : List Str) (resps : List Response)
    (h : pack_catalog entries = []) :
    Tester.import_catalog t entries resps
      = ([], .fail ("Not found files for import".toList) t) := by
  unfold Tester.import_catalog
  rw [h]
  rfl

/-- Concrete instance of C7: a walk containing only readme.txt yields no data
file, so no request is issued and the input error is raised. -/
theorem claim_c7_no_data_files_witness :
    Tester.import_catalog sampleTester ["readme.txt".toList] [okResp]
      = ([], .fail ("Not found files for import".toList) sampleTester) :=
  claim_c7_no_data_files sampleTester ["readme.txt".toList] [okResp] (by decide)

/-- C9: export_orders never reads its old_protocol argument (the field is
overwritten with False before any request), so the issued requests and the
outcome agree for both argument values on every state and every server. -/
theorem claim_c9_export_ignores_flag (t : Tester) (a b : Bool) (resps : List Response) :
    Tester.export_orders t a resps = Tester.export_orders t b resps := rfl


/-! ## The Phase Sequencer -/

theorem insort_cons (p q : Nat × Str) (qs : List (Nat × Str)) :
    insort p (q :: qs) = if p.1 ≤ q.1 then p :: q :: qs else q :: insort p qs := rfl

theorem insort_front (p : Nat × Str) (ys : List (Nat × Str))
    (h : ∀ q ∈ ys, p.1 ≤ q.1) : insort p ys = p :: ys := by
  cases ys with
  | nil => rfl
  | cons q qs =>
    rw [insort_cons, if_pos (h q (List.mem_cons_self q qs))]

theorem insort_skip (p : Nat × Str) (xs ys : List (Nat × Str))
    (h : ∀ q ∈ xs, q.1 < p.1) :
    insort p (xs ++ ys) = xs ++ insort p ys := by
  induction xs with
  | nil => rfl
  | cons x xs ih =>
    have hx : x.1 < p.1 := h x (List.mem_cons_self x xs)
    have hnot : ¬ p.1 ≤ x.1 := by omega
    simp only [List.cons_append, insort_cons, if_neg hnot]
    rw [ih (fun q hq => h q (List.mem_cons_of_mem x hq))]

theorem weight_range (key : Str) (w : Nat) (h : weight key = some w) :
    1 ≤ w ∧ w ≤ 4 := by
  unfold weight at h
  split_ifs at h <;> (injection h with h2; omega)

theorem sortPairs_buckets (l : List (Nat × Str))
    (hl : ∀ p ∈ l, 1 ≤ p.1 ∧ p.1 ≤ 4) :
    sortPairs l =
      l.filter (fun p => p.1 == 1) ++ l.filter (fun p => p.1 == 2) ++
      l.filter (fun p => p.1 == 3) ++ l.filter (fun p => p.1 == 4) := by
  induction l with
  | nil => rfl
  | cons p ps ih =>
    have hp := hl p (List.mem_cons_self p ps)
    have hps : ∀ q ∈ ps, 1 ≤ q.1 ∧ q.1 ≤ 4 := fun q hq => hl q (List.mem_cons_of_mem p hq)
    have hmem1 : ∀ q ∈ ps.filter (fun p => p.1 == 1), q.1 = 1 := fun q hq =>
      beq_iff_eq.mp ((List.mem_filter.mp hq).2)
    have hmem2 : ∀ q ∈ ps.filter (fun p => p.1 == 2), q.1 = 2 := fun q hq =>
      beq_iff_eq.mp ((List.mem_filter.mp hq).2)
    have hmem3 : ∀ q ∈ ps.filter (fun p => p.1 == 3), q.1 = 3 := fun q hq =>
      beq_iff_eq.mp ((List.mem_filter.mp hq).2)
    have hmem4 : ∀ q ∈ ps.filter (fun p => p.1 == 4), q.1 = 4 := fun q hq =>
      beq_iff_eq.mp ((List.mem_filter.mp hq).2)
    show insort p (sortPairs ps) = _
    rw [ih hps]
    have h1234 : p.1 = 1 ∨ p.1 = 2 ∨ p.1 = 3 ∨ p.1 = 4 := by omega
    rcases h1234 with h1 | h2 | h3 | h4
    · have hge : ∀ q ∈ ps.filter (fun p => p.1 == 1) ++ ps.filter (fun p => p.1 == 2) ++
          ps.filter (fun p => p.1 == 3) ++ ps.filter (fun p => p.1 == 4), p.1 ≤ q.1 := by
        intro q hq
        rw [h1]
        simp only [List.append_assoc, List.mem_append] at hq
        rcases hq with hq | hq | hq | hq
        · have := hmem1 q hq; omega
        · have := hmem2 q hq; omega
        · have := hmem3 q hq; omega
        · have := hmem4 q hq; omega
      rw [insort_front p _ hge]
      simp [List.filter_cons, h1]
    · have hlt : ∀ q ∈ ps.filter (fun p => p.1 == 1), q.1 < p.1 := by
        intro q hq
        have := hmem1 q hq
        omega
      have hge : ∀ q ∈ ps.filter (fun p => p.1 == 2) ++
          (ps.filter (fun p => p.1 == 3) ++ ps.filter (fun p => p.1 == 4)), p.1 ≤ q.1 := by
        intro q hq
        rw [h2]
        simp only [List.mem_append] at hq
        rcases hq with hq | hq | hq
        · have := hmem2 q hq; omega
        · have := hmem3 q hq; omega
        · have := hmem4 q hq; omega
      have key : insort p (ps.filter (fun p => p.1 == 1) ++ ps.filter (fun p => p.1 == 2) ++
          ps.filter (fun p => p.1 == 3) ++ ps.filter (fun p => p.1 == 4))
          = ps.filter (fun p => p.1 == 1) ++ (p :: (ps.filter (fun p => p.1 == 2) ++
            (ps.filter (fun p => p.1 == 3) ++ ps.filter (fun p => p.1 == 4)))) := by
        rw [List.append_assoc, List.append_assoc]
        rw [insort_skip p _ _ hlt, insort_front p _ hge]
      rw [key]
      simp [List.filter_cons, h2, List.append_assoc]
    · have hlt : ∀ q ∈ ps.filter (fun p => p.1 == 1) ++ ps.filter (fun p => p.1 == 2),
          q.1 < p.1 := by
        intro q hq
        simp only [List.mem_append] at hq
        rcases hq with hq | hq
        · have := hmem1 q hq; omega
        · have := hmem2 q hq; omega
      have hge : ∀ q ∈ ps.filter (fun p => p.1 == 3) ++ ps.filter (fun p => p.1 == 4),
          p.1 ≤ q.1 := by
        intro q hq
        rw [h3]
        simp only [List.mem_append] at hq
        rcases hq with hq | hq
        · have := hmem3 q hq; omega
        · have := hmem4 q hq; omega
      have key : insort p (ps.filter (fun p => p.1 == 1) ++ ps.filter (fun p => p.1 == 2) ++
          ps.filter (fun p => p.1 == 3) ++ ps.filter (fun p => p.1 == 4))
          = (ps.filter (fun p => p.1 == 1) ++ ps.filter (fun p => p.1 == 2)) ++
            (p :: (ps.filter (fun p => p.1 == 3) ++ ps.filter (fun p => p.1 == 4))) := by
        rw [List.append_assoc]
        rw [insort_skip p _ _ hlt, insort_front p _ hge]
      rw [key]
      simp [List.filter_cons, h3, List.append_assoc]
    · have hlt : ∀ q ∈ ps.filter (fun p => p.1 == 1) ++ ps.filter (fun p => p.1 == 2) ++
          ps.filter (fun p => p.1 == 3), q.1 < p.1 := by
        intro q hq
        simp only [List.append_assoc, List.mem_append] at hq
        rcases hq with hq | hq | hq
        · have := hmem1 q hq; omega
        · have := hmem2 q hq; omega
        · have := hmem3 q hq; omega
      have hge : ∀ q ∈ ps.filter (fun p => p.1 == 4), p.1 ≤ q.1 := by
        intro q hq
        have := hmem4 q hq
        omega
      have key : insort p (ps.filter (fun p => p.1 == 1) ++ ps.filter (fun p => p.1 == 2) ++
          ps.filter (fun p => p.1 == 3) ++ ps.filter (fun p => p.1 == 4))
          = (ps.filter (fun p => p.1 == 1) ++ ps.filter (fun p => p.1 == 2) ++
             ps.filter (fun p => p.1 == 3)) ++ (p :: ps.filter (fun p => p.1 == 4)) := by
        rw [insort_skip p _ _ hlt, insort_front p _ hge]
      rw [key]
      simp [List.filter_cons, h4, List.append_assoc]

theorem optNat_beq_some_some (a b : Nat) : ((some a : Option Nat) == some b) = (a == b) := rfl

theorem optNat_beq_none_some (b : Nat) : ((none : Option Nat) == some b) = false := rfl

theorem pairs_filter_eq (files : List Str) (w : Nat) :
    ((files.filterMap (fun name => (weight (keyOf name)).map (fun v => (v, name)))).filter
        (fun p => p.1 == w))
      = (files.filter (fun n => weight (keyOf n) == some w)).map (fun n => (w, n)) := by
  induction files with
  | nil => rfl
  | cons n ns ih =>
    simp only [List.filterMap_cons, List.filter_cons]
    cases hw : weight (keyOf n) with
    | none =>
      simp [hw, optNat_beq_none_some, ih]
    | some v =>
      by_cases hv : v = w
      · subst hv
        simp [hw, optNat_beq_some_some, List.filter_cons, ih]
      · simp [hw, optNat_beq_some_some, List.filter_cons, ih, hv]

theorem pairs_range (files : List Str) :
    ∀ p ∈ files.filterMap (fun name => (weight (keyOf name)).map (fun v => (v, name))),
      1 ≤ p.1 ∧ p.1 ≤ 4 := by
  intro p hp
  simp only [List.mem_filterMap] at hp
  obtain ⟨n, hn, hmap⟩ := hp
  cases hw : weight (keyOf n) with
  | none => rw [hw] at hmap; simp at hmap
  | some v =>
    rw [hw] at hmap
    simp only [Option.map_some'] at hmap
    injection hmap with hmap
    cases hmap
    exact weight_range _ v hw

/-- C5: on every input list, sort returns exactly the names whose key (base
name up to the first underscore) is in the priority table, grouped in
ascending priority order with the original relative order kept inside each
priority class (stable sort), and every name with an unrecognized key is
absent from the result. -/
theorem claim_c5_sequencer (files : List Str) :
    sort files =
        files.filter (fun n => weight (keyOf n) == some 1) ++
        files.filter (fun n => weight (keyOf n) == some 2) ++
        files.filter (fun n => weight (keyOf n) == some 3) ++
        files.filter (fun n => weight (keyOf n) == some 4) ∧
    ∀ n ∈ sort files, weight (keyOf n) ≠ none := by
  have hmain : sort files =
      files.filter (fun n => weight (keyOf n) == some 1) ++
      files.filter (fun n => weight (keyOf n) == some 2) ++
      files.filter (fun n => weight (keyOf n) == some 3) ++
      files.filter (fun n => weight (keyOf n) == some 4) := by
    unfold sort
    rw [sortPairs_buckets _ (pairs_range files)]
    simp only [List.map_append]
    rw [pairs_filter_eq files 1, pairs_filter_eq files 2,
      pairs_filter_eq files 3, pairs_filter_eq files 4]
    simp [List.map_map, Function.comp]
  refine ⟨hmain, ?_⟩
  intro n hn
  rw [hmain] at hn
  simp only [List.append_assoc, List.mem_append] at hn
  intro hnone
  rcases hn with hn | hn | hn | hn <;>
    (have hb := (List.mem_filter.mp hn).2; rw [hnone] at hb; simp at hb)

/-- Concrete instance of C5: a recognized name returned by sort has a key in
the priority table. -/
theorem claim_c5_sequencer_witness :
    weight (keyOf ("import_1.xml".toList)) ≠ none :=
  (claim_c5_sequencer ["import_1.xml".toList]).2 ("import_1.xml".toList) (by decide)

/-! ## Projection and sequencing facts used by the run analyses -/

theorem authorise_fst (t : Tester) (resps : List Response) :
    (Tester.authorise t resps).1 = [Tester.checkauthReq] := rfl

theorem authorise_snd (t : Tester) (resps : List Response) :
    (Tester.authorise t resps).2 = Tester.authorise_out t resps := rfl

theorem init_fst (t : Tester) (mode : Str) (resps : List Response) :
    (Tester.init t mode resps).1 = [Tester.initReq mode (Tester.get_protocol_parameters t)] := rfl

theorem init_snd (t : Tester) (mode : Str) (resps : List Response) :
    (Tester.init t mode resps).2 = Tester.httpOut t resps := rfl

theorem upload_fst (t : Tester) (resps : List Response) :
    (Tester.upload_file t resps).1 = [Tester.uploadReq] := rfl

theorem upload_snd (t : Tester) (resps : List Response) :
    (Tester.upload_file t resps).2 = Tester.httpOut t resps := rfl

theorem finish_fst (t : Tester) (resps : List Response) :
    (Tester.finish t resps).1 = [Tester.successReq (Tester.get_protocol_parameters t)] := rfl

theorem finish_snd (t : Tester) (resps : List Response) :
    (Tester.finish t resps).2 = Tester.httpOut t resps := rfl

theorem get_orders_snd (t : Tester) (resps : List Response) :
    (Tester.get_orders t resps).2 = Tester.httpOut t resps := rfl

theorem gpp_old (t : Tester) (ht : t.old_protocol = true) :
    Tester.get_protocol_parameters t = [] := by
  unfold Tester.get_protocol_parameters
  rw [ht]
  rfl

theorem seq_eq_ok (step : List Request × StepOut)
    (k : Tester → List Response → List Request × StepOut) (t : Tester) (rest : List Response)
    (h : step.2 = .ok t rest) :
    Tester.seq step k = (step.1 ++ (k t rest).1, (k t rest).2) := by
  have hstep : step = (step.1, StepOut.ok t rest) := by rw [← h]
  rw [hstep, seq_ok]

theorem seq_eq_fail (step : List Request × StepOut)
    (k : Tester → List Response → List Request × StepOut) (e : Str) (t : Tester)
    (h : step.2 = .fail e t) :
    Tester.seq step k = (step.1, .fail e t) := by
  have hstep : step = (step.1, StepOut.fail e t) := by rw [← h]
  rw [hstep, seq_fail]

theorem seq_eq_starve (step : List Request × StepOut)
    (k : Tester → List Response → List Request × StepOut)
    (h : step.2 = .starve) :
    Tester.seq step k = (step.1, .starve) := by
  have hstep : step = (step.1, StepOut.starve) := by rw [← h]
  rw [hstep, seq_starve]

/-! ## The session-id invariant -/

theorem all_takeWhile_self (p : Char → Bool) : ∀ l : Str, (l.takeWhile p).all p = true := by
  intro l
  induction l with
  | nil => rfl
  | cons c cs ih =>
    rw [List.takeWhile_cons]
    cases hc : p c with
    | false => rfl
    | true => simp [List.all_cons, hc, ih]

theorem matchSessidAt_good (s run : Str) (h : matchSessidAt s = some run) :
    run ≠ [] ∧ run.all lowerAlnum = true := by
  unfold matchSessidAt at h
  by_cases h1 : startsWith s ("sessid=".toList) = true
  · rw [if_pos h1] at h
    by_cases h2 : ((s.drop ("sessid=".toList).length).takeWhile lowerAlnum).isEmpty = true
    · rw [if_pos h2] at h
      exact absurd h (by simp)
    · rw [if_neg h2] at h
      injection h with h
      subst h
      refine ⟨?_, all_takeWhile_self lowerAlnum _⟩
      intro hnil
      rw [hnil] at h2
      exact h2 rfl
  · rw [if_neg h1] at h
    exact absurd h (by simp)

theorem searchSessid_good (s : Str) : ∀ run, searchSessid s = some run →
    run ≠ [] ∧ run.all lowerAlnum = true := by
  induction s with
  | nil => intro run h; exact absurd h (by simp [searchSessid])
  | cons c cs ih =>
    intro run h
    rw [searchSessid] at h
    cases hm : matchSessidAt (c :: cs) with
    | some r =>
      rw [hm] at h
      injection h with h
      subst h
      exact matchSessidAt_good _ _ hm
    | none =>
      rw [hm] at h
      exact ih run h

theorem sessionIdOk_update (t : Tester) (sid : Str)
    (h1 : sid ≠ []) (h2 : sid.all lowerAlnum = true) :
    sessionIdOk { t with session_id := some sid } = true := by
  show (!sid.isEmpty && sid.all lowerAlnum) = true
  cases sid with
  | nil => exact absurd rfl h1
  | cons a as => simp only [List.isEmpty_cons, Bool.not_false, Bool.true_and]; exact h2

theorem authorise_out_inv (t : Tester) (hinv : sessionIdOk t = true)
    (resps : List Response) :
    outSessionIdOk (Tester.authorise_out t resps) = true := by
  cases resps with
  | nil => rfl
  | cons r rest =>
    rw [Tester.authorise_out]
    cases hc : Tester.check_response r with
    | error e => exact hinv
    | ok u =>
      cases hop : t.old_protocol with
      | true => simpa [outSessionIdOk, outState] using hinv
      | false =>
        cases hs : searchSessid r.text with
        | none => simpa [outSessionIdOk, outState, hs] using hinv
        | some sid =>
          have hg := searchSessid_good r.text sid hs
          simpa [outSessionIdOk, outState, hs] using sessionIdOk_update t sid hg.1 hg.2

theorem httpOut_inv (t : Tester) (hinv : sessionIdOk t = true) (resps : List Response) :
    outSessionIdOk (Tester.httpOut t resps) = true := by
  cases resps with
  | nil => rfl
  | cons r rest =>
    rw [Tester.httpOut]
    cases hc : Tester.check_response r with
    | error e => exact hinv
    | ok u => exact hinv

theorem seq_out_inv (step : List Request × StepOut)
    (k : Tester → List Response → List Request × StepOut)
    (h1 : outSessionIdOk step.2 = true)
    (h2 : ∀ t2 rest, step.2 = .ok t2 rest → outSessionIdOk (k t2 rest).2 = true) :
    outSessionIdOk (Tester.seq step k).2 = true := by
  cases hs : step.2 with
  | ok t2 rest =>
    rw [seq_eq_ok step k t2 rest hs]
    exact h2 t2 rest hs
  | fail e t2 =>
    rw [seq_eq_fail step k e t2 hs]
    rw [hs] at h1
    exact h1
  | starve =>
    rw [seq_eq_starve step k hs]
    rfl

theorem outState_loop (t : Tester) (fn : Str) : ∀ (resps : List Response) (t2 : Tester),
    outState (Tester.import_file_loop t fn resps).2 = some t2 → t2 = t := by
  intro resps
  induction resps with
  | nil => intro t2 h; exact absurd h (by simp [Tester.import_file_loop, outState])
  | cons r rs ih =>
    intro t2 h
    rw [Tester.import_file_loop] at h
    cases hc : Tester.check_response r with
    | error e =>
      rw [hc] at h
      simp only [outState] at h
      injection h with h
      exact h.symm
    | ok u =>
      rw [hc] at h
      cases hpr : startsWith r.text ("progress".toList) with
      | true =>
        rw [hpr] at h
        simp only [if_true] at h
        exact ih t2 h
      | false =>
        rw [hpr] at h
        simp only [outState] at h
        injection h with h
        exact h.symm

theorem import_file_loop_inv (t : Tester) (hinv : sessionIdOk t = true)
    (fn : Str) (resps : List Response) :
    outSessionIdOk (Tester.import_file_loop t fn resps).2 = true := by
  induction resps with
  | nil => rfl
  | cons r rs ih =>
    rw [Tester.import_file_loop]
    cases hc : Tester.check_response r with
    | error e => exact hinv
    | ok u =>
      cases hpr : startsWith r.text ("progress".toList) with
      | true => simpa using ih
      | false => exact hinv

theorem outState_files (files : List Str) : ∀ (t : Tester) (resps : List Response) (t2 : Tester),
    outState (Tester.import_files t files resps).2 = some t2 → t2 = t := by
  induction files with
  | nil =>
    intro t resps t2 h
    simp only [Tester.import_files, outState] at h
    injection h with h
    exact h.symm
  | cons fn fns ih =>
    intro t resps t2 h
    rw [Tester.import_files] at h
    cases hs : (Tester.import_file_loop t fn resps).2 with
    | ok t1 r1 =>
      rw [seq_eq_ok _ _ t1 r1 hs] at h
      have ht1 : t1 = t := outState_loop t fn resps t1 (by rw [hs]; rfl)
      exact (ih t1 r1 t2 h).trans ht1
    | fail e t1 =>
      rw [seq_eq_fail _ _ e t1 hs] at h
      simp only [outState] at h
      injection h with h
      have ht1 : t1 = t := outState_loop t fn resps t1 (by rw [hs]; rfl)
      exact h.symm.trans ht1
    | starve =>
      rw [seq_eq_starve _ _ hs] at h
      exact absurd h (by simp [outState])

theorem import_files_inv (files : List Str) : ∀ (t : Tester),
    sessionIdOk t = true → ∀ resps : List Response,
    outSessionIdOk (Tester.import_files t files resps).2 = true := by
  induction files with
  | nil => intro t h resps; exact h
  | cons fn fns ih =>
    intro t h resps
    rw [Tester.import_files]
    apply seq_out_inv
    · exact import_file_loop_inv t h fn resps
    · intro t2 rest h2
      have ht2 : t2 = t := outState_loop t fn resps t2 (by rw [h2]; rfl)
      exact ih t2 (by rw [ht2]; exact h) rest

theorem import_catalog_files_inv (t : Tester) (hinv : sessionIdOk t = true)
    (files : List Str) (resps : List Response) :
    outSessionIdOk (Tester.import_catalog_files t files resps).2 = true := by
  rw [Tester.import_catalog_files]
  apply seq_out_inv
  · rw [authorise_snd]
    exact authorise_out_inv t hinv resps
  · intro t1 r1 h1
    have hinv1 : sessionIdOk t1 = true := by
      have hx := authorise_out_inv t hinv resps
      rw [authorise_snd] at h1
      rw [h1] at hx
      exact hx
    apply seq_out_inv
    · rw [init_snd]
      exact httpOut_inv t1 hinv1 r1
    · intro t2 r2 h2
      have hinv2 : sessionIdOk t2 = true := by
        have hx := httpOut_inv t1 hinv1 r1
        rw [init_snd] at h2
        rw [h2] at hx
        exact hx
      apply seq_out_inv
      · rw [upload_snd]
        exact httpOut_inv t2 hinv2 r2
      · intro t3 r3 h3
        have hinv3 : sessionIdOk t3 = true := by
          have hx := httpOut_inv t2 hinv2 r2
          rw [upload_snd] at h3
          rw [h3] at hx
          exact hx
        apply seq_out_inv
        · exact import_files_inv files t3 hinv3 r3
        · intro t4 r4 h4
          have hinv4 : sessionIdOk t4 = true := by
            have hx := import_files_inv files t3 hinv3 r3
            rw [h4] at hx
            exact hx
          rw [finish_snd]
          exact httpOut_inv t4 hinv4 r4

theorem export_orders_inv (t : Tester) (hinv : sessionIdOk t = true)
    (b : Bool) (resps : List Response) :
    outSessionIdOk (Tester.export_orders t b resps).2 = true := by
  rw [Tester.export_orders]
  apply seq_out_inv
  · rw [authorise_snd]
    exact authorise_out_inv { t with old_protocol := false } hinv resps
  · intro t1 r1 h1
    have hinv1 : sessionIdOk t1 = true := by
      have hx := authorise_out_inv { t with old_protocol := false } hinv resps
      rw [authorise_snd] at h1
      rw [h1] at hx
      exact hx
    apply seq_out_inv
    · rw [init_snd]
      exact httpOut_inv t1 hinv1 r1
    · intro t2 r2 h2
      have hinv2 : sessionIdOk t2 = true := by
        have hx := httpOut_inv t1 hinv1 r1
        rw [init_snd] at h2
        rw [h2] at hx
        exact hx
      apply seq_out_inv
      · rw [get_orders_snd]
        exact httpOut_inv t2 hinv2 r2
      · intro t3 r3 h3
        have hinv3 : sessionIdOk t3 = true := by
          have hx := httpOut_inv t2 hinv2 r2
          rw [get_orders_snd] at h3
          rw [h3] at hx
          exact hx
        rw [finish_snd]
        exact httpOut_inv t3 hinv3 r3

/-- C10: the session-id invariant - whenever session_id is set it is a
nonempty word of lowercase letters and digits, because the extraction
pattern sessid=([a-z0-9]+) can capture nothing else - is preserved by the
catalog-import run and the order-export run, whatever the server answers:
the state recorded in every outcome still satisfies it. -/
theorem claim_c10_session_id_inv (t : Tester) (hinv : sessionIdOk t = true) :
    (∀ entries resps, outSessionIdOk (Tester.import_catalog t entries resps).2 = true) ∧
    (∀ b resps, outSessionIdOk (Tester.export_orders t b resps).2 = true) := by
  constructor
  · intro entries resps
    rw [Tester.import_catalog]
    by_cases hne : (pack_catalog entries).length ≠ 0
    · rw [if_pos hne]
      exact import_catalog_files_inv t hinv (pack_catalog entries) resps
    · rw [if_neg hne]
      exact hinv
  · intro b resps
    exact export_orders_inv t hinv b resps

/-- Concrete instance of C10: after an export run that extracts sessid
abc123, the recorded state still satisfies the invariant. -/
theorem claim_c10_session_id_inv_witness :
    outSessionIdOk (Tester.export_orders sampleTester false
      [⟨200, "checkauth ok sessid=abc123".toList⟩, okResp, okResp, okResp]).2 = true :=
  (claim_c10_session_id_inv sampleTester (by decide)).2 false
    [⟨200, "checkauth ok sessid=abc123".toList⟩, okResp, okResp, okResp]

/-! ## Requests issued by the catalog-import path -/

theorem npp_checkauth : noProtocolParams Tester.checkauthReq = true := rfl

theorem npp_init_nil (mode : Str) : noProtocolParams (Tester.initReq mode []) = true := rfl

theorem npp_upload : noProtocolParams Tester.uploadReq = true := rfl

theorem npp_import (fn : Str) : noProtocolParams (Tester.importReq fn) = true := rfl

theorem npp_success_nil : noProtocolParams (Tester.successReq []) = true := rfl

theorem authorise_out_ok_old (t : Tester) (ht : t.old_protocol = true)
    (resps : List Response) (t1 : Tester) (r1 : List Response)
    (h : Tester.authorise_out t resps = .ok t1 r1) : t1 = t := by
  cases resps with
  | nil => exact absurd h (by simp [Tester.authorise_out])
  | cons r rest =>
    rw [Tester.authorise_out] at h
    cases hc : Tester.check_response r with
    | error e => rw [hc] at h; exact absurd h (by simp)
    | ok u =>
      rw [hc] at h
      rw [ht] at h
      simp only [if_true] at h
      injection h with h1 h2
      exact h1.symm

theorem httpOut_ok_state (t : Tester) (resps : List Response) (t1 : Tester)
    (r1 : List Response) (h : Tester.httpOut t resps = .ok t1 r1) : t1 = t := by
  cases resps with
  | nil => exact absurd h (by simp [Tester.httpOut])
  | cons r rest =>
    rw [Tester.httpOut] at h
    cases hc : Tester.check_response r with
    | error e => rw [hc] at h; exact absurd h (by simp)
    | ok u =>
      rw [hc] at h
      injection h with h1 h2
      exact h1.symm

theorem import_file_loop_reqs (t : Tester) (fn : Str) : ∀ (resps : List Response),
    ∀ req ∈ (Tester.import_file_loop t fn resps).1, req = Tester.importReq fn := by
  intro resps
  induction resps with
  | nil => intro req h; simpa [Tester.import_file_loop] using h
  | cons r rs ih =>
    intro req h
    rw [Tester.import_file_loop] at h
    cases hc : Tester.check_response r with
    | error e =>
      rw [hc] at h
      simpa using h
    | ok u =>
      rw [hc] at h
      cases hpr : startsWith r.text ("progress".toList) with
      | true =>
        rw [hpr] at h
        simp only [if_true, List.mem_cons] at h
        rcases h with h | h
        · exact h
        · exact ih req h
      | false =>
        rw [hpr] at h
        simpa using h

theorem import_files_reqs (files : List Str) : ∀ (t : Tester) (resps : List Response),
    ∀ req ∈ (Tester.import_files t files resps).1,
      ∃ fn, fn ∈ files ∧ req = Tester.importReq fn := by
  induction files with
  | nil => intro t resps req h; exact absurd h (by simp [Tester.import_files])
  | cons fn fns ih =>
    intro t resps req h
    rw [Tester.import_files] at h
    cases hs : (Tester.import_file_loop t fn resps).2 with
    | ok t1 r1 =>
      rw [seq_eq_ok _ _ t1 r1 hs] at h
      rw [List.mem_append] at h
      rcases h with h | h
      · exact ⟨fn, List.mem_cons_self fn fns, import_file_loop_reqs t fn resps req h⟩
      · obtain ⟨g, hg, hr⟩ := ih t1 r1 req h
        exact ⟨g, List.mem_cons_of_mem fn hg, hr⟩
    | fail e t1 =>
      rw [seq_eq_fail _ _ e t1 hs] at h
      exact ⟨fn, List.mem_cons_self fn fns, import_file_loop_reqs t fn resps req h⟩
    | starve =>
      rw [seq_eq_starve _ _ hs] at h
      exact ⟨fn, List.mem_cons_self fn fns, import_file_loop_reqs t fn resps req h⟩

theorem import_catalog_files_reqs_old (t : Tester) (ht : t.old_protocol = true)
    (files : List Str) (resps : List Response) :
    ∀ req ∈ (Tester.import_catalog_files t files resps).1, noProtocolParams req = true := by
  intro req h
  rw [Tester.import_catalog_files] at h
  cases ha : Tester.authorise_out t resps with
  | starve =>
    rw [seq_eq_starve _ _ (by rw [authorise_snd]; exact ha)] at h
    rw [authorise_fst] at h
    simp only [List.mem_singleton] at h
    rw [h]
    exact npp_checkauth
  | fail e t1 =>
    rw [seq_eq_fail _ _ e t1 (by rw [authorise_snd]; exact ha)] at h
    rw [authorise_fst] at h
    simp only [List.mem_singleton] at h
    rw [h]
    exact npp_checkauth
  | ok t1 r1 =>
    have ht1 : t1 = t := authorise_out_ok_old t ht resps t1 r1 ha
    subst ht1
    rw [seq_eq_ok _ _ t1 r1 (by rw [authorise_snd]; exact ha)] at h
    rw [authorise_fst] at h
    simp only [] at h
    rw [List.mem_append] at h
    rcases h with h | h
    · simp only [List.mem_singleton] at h
      rw [h]
      exact npp_checkauth
    · cases hb : Tester.httpOut t1 r1 with
      | starve =>
        rw [seq_eq_starve _ _ (by rw [init_snd]; exact hb)] at h
        rw [init_fst, gpp_old t1 ht] at h
        simp only [List.mem_singleton] at h
        rw [h]
        exact npp_init_nil _
      | fail e t2 =>
        rw [seq_eq_fail _ _ e t2 (by rw [init_snd]; exact hb)] at h
        rw [init_fst, gpp_old t1 ht] at h
        simp only [List.mem_singleton] at h
        rw [h]
        exact npp_init_nil _
      | ok t2 r2 =>
        have ht2 : t2 = t1 := httpOut_ok_state t1 r1 t2 r2 hb
        subst ht2
        rw [seq_eq_ok _ _ t2 r2 (by rw [init_snd]; exact hb)] at h
        rw [init_fst, gpp_old t2 ht] at h
        simp only [] at h
        rw [List.mem_append] at h
        rcases h with h | h
        · simp only [List.mem_singleton] at h
          rw [h]
          exact npp_init_nil _
        · cases hc2 : Tester.httpOut t2 r2 with
          | starve =>
            rw [seq_eq_starve _ _ (by rw [upload_snd]; exact hc2)] at h
            rw [upload_fst] at h
            simp only [List.mem_singleton] at h
            rw [h]
            exact npp_upload
          | fail e t3 =>
            rw [seq_eq_fail _ _ e t3 (by rw [upload_snd]; exact hc2)] at h
            rw [upload_fst] at h
            simp only [List.mem_singleton] at h
            rw [h]
            exact npp_upload
          | ok t3 r3 =>
            have ht3 : t3 = t2 := httpOut_ok_state t2 r2 t3 r3 hc2
            subst ht3
            rw [seq_eq_ok _ _ t3 r3 (by rw [upload_snd]; exact hc2)] at h
            rw [upload_fst] at h
            simp only [] at h
            rw [List.mem_append] at h
            rcases h with h | h
            · simp only [List.mem_singleton] at h
              rw [h]
              exact npp_upload
            · cases hd : (Tester.import_files t3 files r3).2 with
              | ok t4 r4 =>
                have ht4 : t4 = t3 := outState_files files t3 r3 t4 (by rw [hd]; rfl)
                subst ht4
                rw [seq_eq_ok _ _ t4 r4 hd] at h
                simp only [] at h
                rw [List.mem_append] at h
                rcases h with h | h
                · obtain ⟨g, hg, hr⟩ := import_files_reqs files t4 r3 req h
                  rw [hr]
                  exact npp_import g
                · rw [finish_fst, gpp_old t4 ht] at h
                  simp only [List.mem_singleton] at h
                  rw [h]
                  exact npp_success_nil
              | fail e t4 =>
                rw [seq_eq_fail _ _ e t4 hd] at h
                obtain ⟨g, hg, hr⟩ := import_files_reqs files t3 r3 req h
                rw [hr]
                exact npp_import g
              | starve =>
                rw [seq_eq_starve _ _ hd] at h
                obtain ⟨g, hg, hr⟩ := import_files_reqs files t3 r3 req h
                rw [hr]
                exact npp_import g

/-- C8: starting from the state built by the constructor (legacy protocol),
every request the catalog-import run issues carries neither a version nor a
sessid parameter, and a checkauth reply that passes the classifier but has
no sessid token does not abort the import path: authorise returns normally
with the state unchanged. -/
theorem claim_c8_import_stays_legacy (url login password : Str)
    (entries : List Str) (resps : List Response) :
    (∀ req ∈ (Tester.import_catalog (Tester.mk0 url login password) entries resps).1,
        noProtocolParams req = true) ∧
    (∀ r rest, Tester.classifiedFailure r = false → searchSessid r.text = none →
        Tester.authorise (Tester.mk0 url login password) (r :: rest)
          = ([Tester.checkauthReq], .ok (Tester.mk0 url login password) rest)) := by
  constructor
  · intro req h
    simp only [Tester.import_catalog] at h
    by_cases hne : (pack_catalog entries).length ≠ 0
    · rw [if_pos hne] at h
      exact import_catalog_files_reqs_old _ rfl _ resps req h
    · rw [if_neg hne] at h
      exact absurd h (by simp)
  · intro r rest hcf hsid
    unfold Tester.authorise
    rw [authorise_out_old _ r rest rfl hcf]

/-- Concrete instance of C8: on a one-file catalog, the checkauth request of
the trace carries no protocol parameters, and a token-free passing checkauth
reply leaves the initial state untouched. -/
theorem claim_c8_import_stays_legacy_witness :
    noProtocolParams Tester.checkauthReq = true ∧
    Tester.authorise (Tester.mk0 ("u".toList) ("l".toList) ("p".toList)) [okResp]
      = ([Tester.checkauthReq], .ok (Tester.mk0 ("u".toList) ("l".toList) ("p".toList)) []) := by
  constructor
  · exact (claim_c8_import_stays_legacy ("u".toList) ("l".toList) ("p".toList)
      ["import_1.xml".toList] [okResp]).1 Tester.checkauthReq (by decide)
  · exact (claim_c8_import_stays_legacy ("u".toList) ("l".toList) ("p".toList)
      ["import_1.xml".toList] [okResp]).2 okResp [] (by decide) (by decide)

/-! ## The first classified failure aborts the run -/

theorem loop_pre_fail (t : Tester) (fn : Str) (r : Response)
    (hr : Tester.classifiedFailure r = true) :
    ∀ (pre : List Response), (∀ p ∈ pre, Tester.classifiedFailure p = false) →
    ∀ rest : List Response,
      (∃ c, 1 ≤ c ∧ c ≤ pre.length ∧
        Tester.import_file_loop t fn (pre ++ r :: rest)
          = (List.replicate c (Tester.importReq fn), .ok t (pre.drop c ++ r :: rest)))
      ∨ Tester.import_file_loop t fn (pre ++ r :: rest)
          = (List.replicate (pre.length + 1) (Tester.importReq fn), .fail r.text t) := by
  intro pre
  induction pre with
  | nil =>
    intro hpre rest
    right
    simp only [List.nil_append, Tester.import_file_loop, check_response_of_fail r hr]
    rfl
  | cons p pre ih =>
    intro hpre rest
    have hp : Tester.classifiedFailure p = false := hpre p (List.mem_cons_self p pre)
    have hcr := check_response_of_pass p hp
    cases hpr : startsWith p.text ("progress".toList) with
    | false =>
      left
      refine ⟨1, Nat.le_refl 1, by simp, ?_⟩
      simp only [List.cons_append, Tester.import_file_loop, hcr]
      rw [hpr]
      rfl
    | true =>
      rcases ih (fun q hq => hpre q (List.mem_cons_of_mem p hq)) rest with
        ⟨c, hc1, hc2, heq⟩ | heq
      · left
        refine ⟨c + 1, by omega, by simp; omega, ?_⟩
        simp only [List.cons_append, Tester.import_file_loop, hcr]
        rw [hpr]
        simp only [if_true, List.append_eq, heq]
        rw [List.replicate_succ, List.drop_succ_cons]
      · right
        simp only [List.cons_append, Tester.import_file_loop, hcr]
        rw [hpr]
        simp only [if_true, List.append_eq, heq, List.length_cons]
        simp [List.replicate_succ]

theorem files_pre_fail (r : Response) (hr : Tester.classifiedFailure r = true) :
    ∀ (files : List Str) (pre : List Response) (t : Tester) (rest : List Response),
      (∀ p ∈ pre, Tester.classifiedFailure p = false) →
      (∃ reqs c, c ≤ pre.length ∧
          Tester.import_files t files (pre ++ r :: rest)
            = (reqs, .ok t (pre.drop c ++ r :: rest)) ∧ reqs.length = c)
      ∨ (∃ reqs, Tester.import_files t files (pre ++ r :: rest)
            = (reqs, .fail r.text t) ∧ reqs.length = pre.length + 1) := by
  intro files
  induction files with
  | nil =>
    intro pre t rest hpre
    exact Or.inl ⟨[], 0, Nat.zero_le _, rfl, rfl⟩
  | cons fn fns ih =>
    intro pre t rest hpre
    rcases loop_pre_fail t fn r hr pre hpre rest with ⟨c1, hc11, hc12, heq⟩ | heq
    · have hpre2 : ∀ p ∈ pre.drop c1, Tester.classifiedFailure p = false :=
        fun p hp => hpre p (List.mem_of_mem_drop hp)
      have hdlen : (pre.drop c1).length = pre.length - c1 := List.length_drop c1 pre
      rcases ih (pre.drop c1) t rest hpre2 with
        ⟨reqs2, c2, hc21, heq2, hlen2⟩ | ⟨reqs2, heq2, hlen2⟩
      · left
        refine ⟨List.replicate c1 (Tester.importReq fn) ++ reqs2, c1 + c2, by omega, ?_, ?_⟩
        · rw [Tester.import_files, seq_eq_ok _ _ t _ (by rw [heq])]
          rw [show (Tester.import_file_loop t fn (pre ++ r :: rest)).1
              = List.replicate c1 (Tester.importReq fn) from by rw [heq]]
          rw [show Tester.import_files t fns (pre.drop c1 ++ r :: rest)
              = (reqs2, .ok t ((pre.drop c1).drop c2 ++ r :: rest)) from heq2]
          rw [List.drop_drop]
        · simp [hlen2]
      · right
        refine ⟨List.replicate c1 (Tester.importReq fn) ++ reqs2, ?_, ?_⟩
        · rw [Tester.import_files, seq_eq_ok _ _ t _ (by rw [heq])]
          rw [show (Tester.import_file_loop t fn (pre ++ r :: rest)).1
              = List.replicate c1 (Tester.importReq fn) from by rw [heq]]
          rw [show Tester.import_files t fns (pre.drop c1 ++ r :: rest)
              = (reqs2, .fail r.text t) from heq2]
        · rw [List.length_append, List.length_replicate, hlen2, hdlen]
          omega
    · right
      refine ⟨List.replicate (pre.length + 1) (Tester.importReq fn), ?_, by simp⟩
      rw [Tester.import_files, seq_eq_fail _ _ r.text t (by rw [heq])]
      rw [show (Tester.import_file_loop t fn (pre ++ r :: rest)).1
          = List.replicate (pre.length + 1) (Tester.importReq fn) from by rw [heq]]

theorem icf_pre_fail (t : Tester) (files : List Str) (pre : List Response)
    (r : Response) (rest : List Response)
    (ht : t.old_protocol = true)
    (hpre : ∀ p ∈ pre, Tester.classifiedFailure p = false)
    (hr : Tester.classifiedFailure r = true) :
    (∃ t2 rem, (Tester.import_catalog_files t files (pre ++ r :: rest)).2 = .ok t2 rem ∧
        (Tester.import_catalog_files t files (pre ++ r :: rest)).1.length ≤ pre.length)
    ∨ ((Tester.import_catalog_files t files (pre ++ r :: rest)).2 = .fail r.text t ∧
        (Tester.import_catalog_files t files (pre ++ r :: rest)).1.length = pre.length + 1) := by
  rcases pre with _ | ⟨p1, pre1⟩
  · right
    rw [Tester.import_catalog_files, List.nil_append,
      seq_eq_fail _ _ r.text t (by rw [authorise_snd]; exact authorise_out_fail t r rest hr),
      authorise_fst]
    exact ⟨rfl, rfl⟩
  rcases pre1 with _ | ⟨p2, pre2⟩
  · right
    have hp1 : Tester.classifiedFailure p1 = false := hpre p1 (by simp)
    rw [Tester.import_catalog_files, List.cons_append, List.nil_append,
      seq_eq_ok _ _ t (r :: rest)
        (by rw [authorise_snd]; exact authorise_out_old t p1 (r :: rest) ht hp1),
      authorise_fst,
      seq_eq_fail _ _ r.text t (by rw [init_snd]; exact httpOut_fail t r rest hr),
      init_fst]
    exact ⟨rfl, rfl⟩
  rcases pre2 with _ | ⟨p3, pre3⟩
  · right
    have hp1 : Tester.classifiedFailure p1 = false := hpre p1 (by simp)
    have hp2 : Tester.classifiedFailure p2 = false := hpre p2 (by simp)
    rw [Tester.import_catalog_files, List.cons_append, List.cons_append, List.nil_append,
      seq_eq_ok _ _ t (p2 :: r :: rest)
        (by rw [authorise_snd]; exact authorise_out_old t p1 (p2 :: r :: rest) ht hp1),
      authorise_fst,
      seq_eq_ok _ _ t (r :: rest)
        (by rw [init_snd]; exact httpOut_pass t p2 (r :: rest) hp2),
      init_fst,
      seq_eq_fail _ _ r.text t (by rw [upload_snd]; exact httpOut_fail t r rest hr),
      upload_fst]
    exact ⟨rfl, rfl⟩
  have hp1 : Tester.classifiedFailure p1 = false := hpre p1 (by simp)
  have hp2 : Tester.classifiedFailure p2 = false := hpre p2 (by simp)
  have hp3 : Tester.classifiedFailure p3 = false := hpre p3 (by simp)
  have hpre3 : ∀ p ∈ pre3, Tester.classifiedFailure p = false := fun p hp =>
    hpre p (by simp [hp])
  rw [Tester.import_catalog_files, List.cons_append, List.cons_append, List.cons_append,
    seq_eq_ok _ _ t (p2 :: p3 :: (pre3 ++ r :: rest))
      (by rw [authorise_snd]; exact authorise_out_old t p1 _ ht hp1),
    authorise_fst,
    seq_eq_ok _ _ t (p3 :: (pre3 ++ r :: rest))
      (by rw [init_snd]; exact httpOut_pass t p2 _ hp2),
    init_fst,
    seq_eq_ok _ _ t (pre3 ++ r :: rest)
      (by rw [upload_snd]; exact httpOut_pass t p3 _ hp3),
    upload_fst]
  rcases files_pre_fail r hr files pre3 t rest hpre3 with
    ⟨reqs2, c, hc, heq2, hlen⟩ | ⟨reqs2, heq2, hlen⟩
  · rw [seq_eq_ok _ _ t (pre3.drop c ++ r :: rest) (by rw [heq2]),
      show Tester.import_files t files (pre3 ++ r :: rest)
        = (reqs2, StepOut.ok t (pre3.drop c ++ r :: rest)) from heq2]
    cases hdc : pre3.drop c with
    | nil =>
      right
      have hc2 : pre3.length ≤ c := List.drop_eq_nil_iff.mp hdc
      refine ⟨?_, ?_⟩
      · simp [List.nil_append, finish_snd, httpOut_fail t r rest hr]
      · simp only [List.nil_append, finish_fst, List.length_append, List.length_cons,
          List.length_nil, hlen]
        omega
    | cons q qs =>
      left
      have hq : Tester.classifiedFailure q = false :=
        hpre3 q (List.mem_of_mem_drop (by rw [hdc]; exact List.mem_cons_self q qs))
      have hlt : c < pre3.length := by
        by_contra hcon
        push_neg at hcon
        rw [List.drop_eq_nil_iff.mpr hcon] at hdc
        exact absurd hdc (by simp)
      refine ⟨t, qs ++ r :: rest, ?_, ?_⟩
      · simp [List.cons_append, finish_snd, httpOut_pass t q (qs ++ r :: rest) hq]
      · simp only [finish_fst, List.length_append, List.length_cons, List.length_nil, hlen]
        omega
  · right
    rw [seq_eq_fail _ _ r.text t (by rw [heq2]),
      show Tester.import_files t files (pre3 ++ r :: rest)
        = (reqs2, StepOut.fail r.text t) from heq2]
    constructor
    · rfl
    · simp only [List.length_append, List.length_cons, List.length_nil, hlen]
      omega

theorem get_orders_fst (t : Tester) (resps : List Response) :
    (Tester.get_orders t resps).1 = [Tester.queryReq (Tester.get_protocol_parameters t)] := rfl

theorem eo_pre_fail (t : Tester) (b : Bool) (pre : List Response)
    (r : Response) (rest : List Response)
    (hpre : ∀ p ∈ pre, Tester.classifiedFailure p = false)
    (hr : Tester.classifiedFailure r = true) :
    (Tester.export_orders t b (pre ++ r :: rest)).1.length ≤ pre.length
    ∨ (∃ t2, (Tester.export_orders t b (pre ++ r :: rest)).2 = .fail r.text t2 ∧
        (Tester.export_orders t b (pre ++ r :: rest)).1.length = pre.length + 1) := by
  rcases pre with _ | ⟨p1, pre1⟩
  · right
    rw [Tester.export_orders, List.nil_append,
      seq_eq_fail _ _ r.text { t with old_protocol := false }
        (by rw [authorise_snd]
            exact authorise_out_fail { t with old_protocol := false } r rest hr),
      authorise_fst]
    exact ⟨{ t with old_protocol := false }, rfl, rfl⟩
  have hp1 : Tester.classifiedFailure p1 = false := hpre p1 (by simp)
  cases hs : searchSessid p1.text with
  | none =>
    left
    rw [Tester.export_orders, List.cons_append,
      seq_eq_fail _ _ _ { t with old_protocol := false }
        (by rw [authorise_snd]
            exact authorise_out_new_none { t with old_protocol := false } p1 _ rfl hp1 hs),
      authorise_fst]
    simp only [List.length_cons, List.length_nil]
    omega
  | some sid =>
    rcases pre1 with _ | ⟨p2, pre2⟩
    · right
      rw [Tester.export_orders, List.cons_append, List.nil_append,
        seq_eq_ok _ _ _ _
          (by rw [authorise_snd]
              exact authorise_out_new_some { t with old_protocol := false } p1 _ rfl hp1 sid hs),
        authorise_fst,
        seq_eq_fail _ _ r.text _ (by rw [init_snd]; exact httpOut_fail _ r rest hr),
        init_fst]
      exact ⟨_, rfl, rfl⟩
    have hp2 : Tester.classifiedFailure p2 = false := hpre p2 (by simp)
    rcases pre2 with _ | ⟨p3, pre3⟩
    · right
      rw [Tester.export_orders, List.cons_append, List.cons_append, List.nil_append,
        seq_eq_ok _ _ _ _
          (by rw [authorise_snd]
              exact authorise_out_new_some { t with old_protocol := false } p1 _ rfl hp1 sid hs),
        authorise_fst,
        seq_eq_ok _ _ _ _ (by rw [init_snd]; exact httpOut_pass _ p2 _ hp2),
        init_fst,
        seq_eq_fail _ _ r.text _ (by rw [get_orders_snd]; exact httpOut_fail _ r rest hr),
        get_orders_fst]
      exact ⟨_, rfl, rfl⟩
    have hp3 : Tester.classifiedFailure p3 = false := hpre p3 (by simp)
    rcases pre3 with _ | ⟨p4, pre4⟩
    · right
      rw [Tester.export_orders, List.cons_append, List.cons_append, List.cons_append,
        List.nil_append,
        seq_eq_ok _ _ _ _
          (by rw [authorise_snd]
              exact authorise_out_new_some { t with old_protocol := false } p1 _ rfl hp1 sid hs),
        authorise_fst,
        seq_eq_ok _ _ _ _ (by rw [init_snd]; exact httpOut_pass _ p2 _ hp2),
        init_fst,
        seq_eq_ok _ _ _ _ (by rw [get_orders_snd]; exact httpOut_pass _ p3 _ hp3),
        get_orders_fst,
        finish_fst, finish_snd, httpOut_fail _ r rest hr]
      exact ⟨_, rfl, rfl⟩
    have hp4 : Tester.classifiedFailure p4 = false := hpre p4 (by simp)
    left
    rw [Tester.export_orders, List.cons_append, List.cons_append, List.cons_append,
      List.cons_append,
      seq_eq_ok _ _ _ _
        (by rw [authorise_snd]
            exact authorise_out_new_some { t with old_protocol := false } p1 _ rfl hp1 sid hs),
      authorise_fst,
      seq_eq_ok _ _ _ _ (by rw [init_snd]; exact httpOut_pass _ p2 _ hp2),
      init_fst,
      seq_eq_ok _ _ _ _ (by rw [get_orders_snd]; exact httpOut_pass _ p3 _ hp3),
      get_orders_fst,
      finish_fst]
    simp only [List.length_append, List.length_cons, List.length_nil]
    omega

/-- C6: when the responses are a block of passing replies followed by a
classified failure (non-200 status or failure body), every run aborts at the
step that consumes the failing reply and issues nothing after it.  On the
catalog-import run under the legacy protocol, either the whole session
completes before that failing reply is consumed (the trace stays within the
passing block), or the run aborts raising exactly that reply text, its trace
being the passing-block requests plus the single failing one.  On the
order-export run (for either value of its argument), either no request
beyond the passing block is ever issued, or the run aborts at the failing
reply with exactly that reply text and the passing-block requests plus the
single failing one.  In both runs no step is retried: the progress-polling
loop inside the import phase is the only repetition. -/
theorem claim_c6_failure_aborts (t : Tester) (entries : List Str)
    (pre : List Response) (r : Response) (rest : List Response)
    (ht : t.old_protocol = true)
    (hne : (pack_catalog entries).length ≠ 0)
    (hpre : ∀ p ∈ pre, Tester.classifiedFailure p = false)
    (hr : Tester.classifiedFailure r = true) :
    ((∃ t2 rem, (Tester.import_catalog t entries (pre ++ r :: rest)).2 = .ok t2 rem ∧
        (Tester.import_catalog t entries (pre ++ r :: rest)).1.length ≤ pre.length)
      ∨ ((Tester.import_catalog t entries (pre ++ r :: rest)).2 = .fail r.text t ∧
        (Tester.import_catalog t entries (pre ++ r :: rest)).1.length = pre.length + 1)) ∧
    (∀ b : Bool,
      (Tester.export_orders t b (pre ++ r :: rest)).1.length ≤ pre.length
      ∨ (∃ t2, (Tester.export_orders t b (pre ++ r :: rest)).2 = .fail r.text t2 ∧
          (Tester.export_orders t b (pre ++ r :: rest)).1.length = pre.length + 1)) := by
  constructor
  · have hred : Tester.import_catalog t entries (pre ++ r :: rest)
        = Tester.import_catalog_files t (pack_catalog entries) (pre ++ r :: rest) := by
      simp only [Tester.import_catalog]
      rw [if_pos hne]
    rw [hred]
    exact icf_pre_fail t (pack_catalog entries) pre r rest ht hpre hr
  · intro b
    exact eo_pre_fail t b pre r rest hpre hr

/-- Concrete instance of C6: a failing reply to the very first request
aborts either run with exactly one issued request. -/
theorem claim_c6_failure_aborts_witness :
    ((∃ t2 rem, (Tester.import_catalog sampleTester ["import_1.xml".toList]
        ([] ++ failureResp :: [])).2 = .ok t2 rem ∧
        (Tester.import_catalog sampleTester ["import_1.xml".toList]
          ([] ++ failureResp :: [])).1.length ≤ List.length ([] : List Response))
      ∨ ((Tester.import_catalog sampleTester ["import_1.xml".toList]
        ([] ++ failureResp :: [])).2 = .fail failureResp.text sampleTester ∧
        (Tester.import_catalog sampleTester ["import_1.xml".toList]
          ([] ++ failureResp :: [])).1.length = List.length ([] : List Response) + 1)) ∧
    (∀ b : Bool,
      (Tester.export_orders sampleTester b ([] ++ failureResp :: [])).1.length
          ≤ List.length ([] : List Response)
      ∨ (∃ t2, (Tester.export_orders sampleTester b ([] ++ failureResp :: [])).2
            = .fail failureResp.text t2 ∧
          (Tester.export_orders sampleTester b ([] ++ failureResp :: [])).1.length
            = List.length ([] : List Response) + 1)) :=
  claim_c6_failure_aborts sampleTester ["import_1.xml".toList] [] failureResp []
    rfl (by decide) (by decide) (by decide)

/-! ## The import loop iterates the packed order, not the sequenced order -/

/-- C1 (code bug documentation): import_catalog drives every packed .xml
data file through an import request in the order pack_catalog returned them
- the sort function is never applied.  On a walk that lists prices_1.xml
before import_1.xml and also contains other_1.xml (unrecognized key), the
run issues its import requests in exactly that unsorted order, other_1.xml
included, while the Phase Sequencer sort of the same files is
[import_1.xml, prices_1.xml] with other_1.xml excluded. -/
theorem claim_c1_import_order_unsorted :
    (Tester.import_catalog sampleTester
        ["prices_1.xml".toList, "import_1.xml".toList, "other_1.xml".toList]
        [okResp, okResp, okResp, okResp, okResp, okResp, okResp]).1
      = [Tester.checkauthReq, Tester.initReq ("catalog".toList) [], Tester.uploadReq,
         Tester.importReq ("prices_1.xml".toList), Tester.importReq ("import_1.xml".toList),
         Tester.importReq ("other_1.xml".toList), Tester.successReq []] ∧
    pack_catalog ["prices_1.xml".toList, "import_1.xml".toList, "other_1.xml".toList]
      = ["prices_1.xml".toList, "import_1.xml".toList, "other_1.xml".toList] ∧
    sort ["prices_1.xml".toList, "import_1.xml".toList, "other_1.xml".toList]
      = ["import_1.xml".toList, "prices_1.xml".toList] := by
  refine ⟨by decide, by decide, by decide⟩
